import Mathlib

/-!
# HyperionDB — shallow embedding and verification

A shallow embedding of the storage engine and query subsystem of the
HyperionDB key-value store (Rust), together with theorems settling the
frozen claims about its specification.

Modelling conventions:
* `serde_json::Value` is the inductive `Json`; numbers carry an exact
  rational payload (the claims are settled at inputs whose `f64`
  representation is exact, so rational arithmetic agrees with the
  `f64` arithmetic the code performs there).
* `BTreeMap`/`DashMap` are association lists with the map operations
  the source uses (`get`, `insert` = replace-or-append, `remove`,
  iteration); `HashSet<String>` is `Finset String`.
* Rust's `v as i64` float-to-int cast is truncation toward zero with
  saturation at the i64 bounds (`f64ToI64`).
* The shard hash (`DefaultHasher`) is an opaque stable function and is
  a field of the embedded store state.
* Async effects are made explicit: operations return, next to the new
  state, the list of shard snapshots written (`save_shard_to_disk`)
  and of WAL appends performed.
-/

/-- JSON values, mirroring `serde_json::Value`.  Number payloads are
exact rationals. -/
inductive Json where
  | null : Json
  | bool : Bool → Json
  | num : ℚ → Json
  | str : String → Json
  | arr : List Json → Json
  | obj : List (String × Json) → Json

/-- Lookup in an association list by key: the map `get` of
`BTreeMap`/`DashMap`/`serde_json::Map` (first matching entry). -/
def aget {α : Type} (m : List (String × α)) (k : String) : Option α :=
  match m with
  | [] => none
  | (k₀, v₀) :: rest => if k₀ = k then some v₀ else aget rest k

/-- Lookup in an integer-keyed association list (`BTreeMap<i64, _>`). -/
def zget {α : Type} (m : List (ℤ × α)) (k : ℤ) : Option α :=
  match m with
  | [] => none
  | (k₀, v₀) :: rest => if k₀ = k then some v₀ else zget rest k

/-- Map insert: replace the value of an existing key in place, else
append the new entry.  Models `insert` on `BTreeMap`/`DashMap`. -/
def aset {α : Type} (m : List (String × α)) (k : String) (v : α) :
    List (String × α) :=
  match m with
  | [] => [(k, v)]
  | (k₀, v₀) :: rest =>
    if k₀ = k then (k₀, v) :: rest else (k₀, v₀) :: aset rest k v

/-- Integer-keyed map insert (replace-or-append). -/
def zset {α : Type} (m : List (ℤ × α)) (k : ℤ) (v : α) :
    List (ℤ × α) :=
  match m with
  | [] => [(k, v)]
  | (k₀, v₀) :: rest =>
    if k₀ = k then (k₀, v) :: rest else (k₀, v₀) :: zset rest k v

/-- Map removal, dropping every entry with the given key.  On a map
with unique keys this is `BTreeMap::remove`/`DashMap::remove` without
the returned value. -/
def aerase {α : Type} (m : List (String × α)) (k : String) :
    List (String × α) :=
  m.filter (fun p => decide (p.1 ≠ k))

/-- Integer-keyed map removal. -/
def zerase {α : Type} (m : List (ℤ × α)) (k : ℤ) : List (ℤ × α) :=
  m.filter (fun p => decide (p.1 ≠ k))

/-- Nat-keyed map lookup (shard registry `DashMap<u32, _>`). -/
def nget {α : Type} (m : List (ℕ × α)) (k : ℕ) : Option α :=
  match m with
  | [] => none
  | (k₀, v₀) :: rest => if k₀ = k then some v₀ else nget rest k

/-- Nat-keyed map insert (replace-or-append). -/
def nset {α : Type} (m : List (ℕ × α)) (k : ℕ) (v : α) :
    List (ℕ × α) :=
  match m with
  | [] => [(k, v)]
  | (k₀, v₀) :: rest =>
    if k₀ = k then (k₀, v) :: rest else (k₀, v₀) :: nset rest k v

/-- Rust `f64 as i64`: truncation toward zero, saturating at the i64
range boundaries. -/
def f64ToI64 (q : ℚ) : ℤ :=
  let t : ℤ := if 0 ≤ q then ⌊q⌋ else ⌈q⌉
  max (-(2 ^ 63)) (min (2 ^ 63 - 1) t)

/-- The numeric normalization on the index-maintenance side:
`let int_value = (n * 1000.0) as i64` in `update_indices_on_insert`
(src/index/mod.rs:121) and `update_indices_on_delete`
(src/index/mod.rs:173). -/
def insertNormKey (n : ℚ) : ℤ := f64ToI64 (n * 1000)

/-- The numeric normalization on the query side:
`let int_value = (v * 1000.0) as i64` in `query_numeric`
(src/index/mod.rs:40). -/
def queryNormKey (v : ℚ) : ℤ := f64ToI64 (v * 1000)

/-- Modelled from the spec: "Numeric values are normalized as
`round(v * 1000)` truncated to i64" — rounding half away from zero
(Rust `f64::round`), for comparison against the code's normalization. -/
def specRoundNormKey (v : ℚ) : ℤ :=
  if 0 ≤ v * 1000 then ⌊v * 1000 + 1 / 2⌋ else ⌈v * 1000 - 1 / 2⌉

/-- Decimal digit string to natural number. -/
def digitsToNat (ds : List Char) : ℕ :=
  ds.foldl (fun a c => a * 10 + (c.toNat - 48)) 0

/-- Unsigned decimal literal (`123`, `1.5`, `.5`, `2.`) to its exact
rational value; `none` when the characters are not such a literal. -/
def parseUnsigned (ds : List Char) : Option ℚ :=
  match ds.span (fun c => c.isDigit) with
  | (intPart, []) =>
    if intPart = [] then none else some ((digitsToNat intPart : ℕ) : ℚ)
  | (intPart, dot :: fracPart) =>
    if dot = '.' ∧ fracPart.all (fun c => c.isDigit) ∧
        ¬ (intPart = [] ∧ fracPart = []) then
      some ((digitsToNat intPart : ℚ) +
        (digitsToNat fracPart : ℚ) / (10 : ℚ) ^ fracPart.length)
    else none

/-- Decimal literal parsing: models `value.parse::<f64>()` on the
plain (optionally signed) decimal literals the protocol carries;
returns the exact rational value. -/
def parseDecimal (s : String) : Option ℚ :=
  match s.data with
  | [] => none
  | c :: rest =>
    if c = '-' then (parseUnsigned rest).map (fun q => -q)
    else if c = '+' then parseUnsigned rest
    else parseUnsigned s.data

/-- Split on a separator character, keeping empty pieces: Rust
`str::split(sep)` (loop body). -/
def splitCharGo (sep : Char) : List Char → List Char → List String
  | [], acc => [String.mk acc.reverse]
  | c :: rest, acc =>
    if c = sep then String.mk acc.reverse :: splitCharGo sep rest []
    else splitCharGo sep rest (c :: acc)

/-- Rust `str::split(sep)` on a string. -/
def splitChar (s : String) (sep : Char) : List String :=
  splitCharGo sep s.data []

/-- Rust `str::trim`: strip whitespace from both ends. -/
def trimChars (s : String) : String :=
  String.mk
    (((s.data.dropWhile Char.isWhitespace).reverse.dropWhile
      Char.isWhitespace).reverse)

/-- Union of all key sets in a bucket list: the `result.extend(set)`
loop pattern of `query_numeric`/`query_string`. -/
def extendAll {κ : Type} (m : List (κ × Finset String)) : Finset String :=
  m.foldl (fun acc p => acc ∪ p.2) ∅

/-- Substring test: Rust `str::contains` on the byte/char sequence. -/
def strContains (hay needle : String) : Bool :=
  decide (needle.data <:+: hay.data)

/-- `query_numeric` (src/index/mod.rs:37-76): parse the literal as a
float, normalize, and scan the ordered buckets per the operator.  The
`!=` arm iterates `map.iter()` — every bucket, the matching one
included. -/
def queryNumeric (map : List (ℤ × Finset String)) (operator value : String) :
    Finset String :=
  match parseDecimal value with
  | none => ∅
  | some v =>
    let int_value := queryNormKey v
    if operator = "=" then (zget map int_value).getD ∅
    else if operator = "!=" then extendAll map
    else if operator = ">" then
      extendAll (map.filter (fun p => decide (int_value + 1 ≤ p.1)))
    else if operator = ">=" then
      extendAll (map.filter (fun p => decide (int_value ≤ p.1)))
    else if operator = "<" then
      extendAll (map.filter (fun p => decide (p.1 < int_value)))
    else if operator = "<=" then
      extendAll (map.filter (fun p => decide (p.1 ≤ int_value)))
    else ∅

/-- `query_string` (src/index/mod.rs:79-102).  As in the numeric case,
the `!=` arm iterates every bucket. -/
def queryString (map : List (String × Finset String))
    (operator value : String) : Finset String :=
  if operator = "=" then (aget map value).getD ∅
  else if operator = "!=" then extendAll map
  else if operator = "CONTAINS" then
    extendAll (map.filter (fun p => strContains p.1 value))
  else ∅

/-- The two index variants (src/index/mod.rs:7-10). -/
inductive Index where
  | numeric : List (ℤ × Finset String) → Index
  | string : List (String × Finset String) → Index
deriving DecidableEq

/-- `Index::query_keys` (src/index/mod.rs:28-33). -/
def Index.queryKeys : Index → String → String → Finset String
  | .numeric m, op, v => queryNumeric m op v
  | .string m, op, v => queryString m op v

/-- Loop body of the `get_nested_field` private to src/index/mod.rs
(lines 215-226): descend while the segment resolves to an object,
otherwise return the lookup of the current segment; after the last
segment (all segments resolved to objects) return `none`. -/
def getNestedFieldModGo : List (String × Json) → List String → Option Json
  | _, [] => none
  | cur, part :: rest =>
    match aget cur part with
    | some (Json.obj o) => getNestedFieldModGo o rest
    | other => other

/-- `get_nested_field` as defined in src/index/mod.rs:215-226 — the
resolver the index-maintenance code in that file calls. -/
def getNestedFieldMod (map : List (String × Json)) (field : String) :
    Option Json :=
  getNestedFieldModGo map (splitChar field '.')

/-- Loop body of `get_nested_field` in src/index/utils.rs:33-53:
return the value at the final segment; at a non-final segment require
an object and descend, else `none`. -/
def getNestedFieldUtilsGo : List (String × Json) → List String → Option Json
  | _, [] => none
  | cur, [part] => aget cur part
  | cur, part :: rest =>
    match aget cur part with
    | some (Json.obj o) => getNestedFieldUtilsGo o rest
    | _ => none

/-- `get_nested_field` as defined in src/index/utils.rs:33-53. -/
def getNestedFieldUtils (map : List (String × Json)) (field : String) :
    Option Json :=
  getNestedFieldUtilsGo map (splitChar field '.')

/-- Index kinds (src/config.rs `IndexType`). -/
inductive IndexType where
  | numeric
  | string
deriving DecidableEq

/-- An indexed-field descriptor (src/config.rs `IndexedField`). -/
structure IndexedField where
  field : String
  index_type : IndexType
deriving DecidableEq

/-- One iteration of the field loop of `update_indices_on_insert`
(src/index/mod.rs:112-153): resolve the dotted path with the mod.rs
resolver, then add `key` to the bucket of the normalized value,
creating index and bucket as needed. -/
def applyInsertField (indices : List (String × Index)) (key : String)
    (map : List (String × Json)) (f : IndexedField) :
    List (String × Index) :=
  match getNestedFieldMod map f.field with
  | none => indices
  | some fv =>
    match f.index_type, fv with
    | .numeric, Json.num n =>
      let int_value := insertNormKey n
      let indices₁ :=
        if (aget indices f.field).isSome then indices
        else aset indices f.field (Index.numeric [])
      match aget indices₁ f.field with
      | some (Index.numeric b) =>
        aset indices₁ f.field
          (Index.numeric (zset b int_value
            (insert key ((zget b int_value).getD ∅))))
      | _ => indices₁
    | .string, Json.str s =>
      let indices₁ :=
        if (aget indices f.field).isSome then indices
        else aset indices f.field (Index.string [])
      match aget indices₁ f.field with
      | some (Index.string b) =>
        aset indices₁ f.field
          (Index.string (aset b s (insert key ((aget b s).getD ∅))))
      | _ => indices₁
    | _, _ => indices

/-- `update_indices_on_insert` (src/index/mod.rs:105-155): for an
object value, fold the per-field insertion over the configured
indexed fields; non-objects leave every index untouched. -/
def updateIndicesOnInsert (indices : List (String × Index)) (key : String)
    (value : Json) (indexed_fields : List IndexedField) :
    List (String × Index) :=
  match value with
  | Json.obj map =>
    indexed_fields.foldl (fun ind f => applyInsertField ind key map f) indices
  | _ => indices

/-- One iteration of the field loop of `update_indices_on_delete`
(src/index/mod.rs:164-209): remove `key` from the bucket of the value
the path resolves to, dropping empty buckets and empty field
indexes. -/
def applyDeleteField (indices : List (String × Index)) (key : String)
    (map : List (String × Json)) (f : IndexedField) :
    List (String × Index) :=
  match getNestedFieldMod map f.field with
  | none => indices
  | some fv =>
    match f.index_type, fv with
    | .numeric, Json.num n =>
      let int_value := insertNormKey n
      match aget indices f.field with
      | some (Index.numeric b) =>
        let b₁ :=
          match zget b int_value with
          | some keys_set =>
            let ks := keys_set.erase key
            if ks = ∅ then zerase b int_value else zset b int_value ks
          | none => b
        if b₁ = [] then aerase indices f.field
        else aset indices f.field (Index.numeric b₁)
      | _ => indices
    | .string, Json.str s =>
      match aget indices f.field with
      | some (Index.string b) =>
        let b₁ :=
          match aget b s with
          | some keys_set =>
            let ks := keys_set.erase key
            if ks = ∅ then aerase b s else aset b s ks
          | none => b
        if b₁ = [] then aerase indices f.field
        else aset indices f.field (Index.string b₁)
      | _ => indices
    | _, _ => indices

/-- `update_indices_on_delete` (src/index/mod.rs:157-211). -/
def updateIndicesOnDelete (indices : List (String × Index)) (key : String)
    (value : Json) (indexed_fields : List IndexedField) :
    List (String × Index) :=
  match value with
  | Json.obj map =>
    indexed_fields.foldl (fun ind f => applyDeleteField ind key map f) indices
  | _ => indices

/-- The store state (src/hyperion_db/hyperion_db_struct.rs plus the
shard-routing data of `ShardManager`).  `hash` stands for the opaque
stable 64-bit `DefaultHasher`; `get_shard` is `hash(key) % num_shards`
(src/shard_manager/mod.rs:82-86). -/
structure HyperionDB where
  shards : List (ℕ × List (String × Json))
  indices : List (String × Index)
  num_shards : ℕ
  hash : String → ℕ
  indexed_fields : List IndexedField

/-- `ShardManager::get_shard` (src/shard_manager/mod.rs:82-86). -/
def HyperionDB.getShard (db : HyperionDB) (key : String) : ℕ :=
  db.hash key % db.num_shards

/-- `HyperionDB::get` (src/hyperion_db/get_method.rs:6-9). -/
def HyperionDB.get (db : HyperionDB) (key : String) : Option Json :=
  match nget db.shards (db.getShard key) with
  | some shard => aget shard key
  | none => none

/-- `HyperionDB::insert` (src/hyperion_db/insert_method.rs:9-16):
write into the shard, update indexes, snapshot the shard.  The second
component lists the shard snapshots written. -/
def HyperionDB.insert (db : HyperionDB) (key : String) (value : Json) :
    HyperionDB × List ℕ :=
  let shard_id := db.getShard key
  match nget db.shards shard_id with
  | some shard =>
    ({ db with
        shards := nset db.shards shard_id (aset shard key value)
        indices := updateIndicesOnInsert db.indices key value
          db.indexed_fields },
      [shard_id])
  | none => (db, [])

/-- `HyperionDB::insert_or_update`
(src/hyperion_db/insert_or_update.rs:12-35): write into the shard,
append a WAL record (spawned; recorded in the second component as
`(shard, key, value)`), update indexes.  No snapshot is taken. -/
def HyperionDB.insertOrUpdate (db : HyperionDB) (key : String)
    (value : Json) : HyperionDB × List (ℕ × String × Json) :=
  let shard_id := db.getShard key
  match nget db.shards shard_id with
  | some shard =>
    ({ db with
        shards := nset db.shards shard_id (aset shard key value)
        indices := updateIndicesOnInsert db.indices key value
          db.indexed_fields },
      [(shard_id, key, value)])
  | none => (db, [])

/-- `HyperionDB::insert_or_update_many`
(src/hyperion_db/insert_or_update.rs:37-78): the same per-pair step
folded over the batch (chunk concurrency modelled as the caller's
order). -/
def HyperionDB.insertOrUpdateMany (db : HyperionDB)
    (data : List (String × Json)) :
    HyperionDB × List (ℕ × String × Json) :=
  data.foldl
    (fun acc p =>
      let r := acc.1.insertOrUpdate p.1 p.2
      (r.1, acc.2 ++ r.2))
    (db, [])

/-- `HyperionDB::delete` (src/hyperion_db/delete_method.rs:9-19):
remove the key from its shard; when a value was removed, update the
indexes with it and re-snapshot the shard; otherwise fail with
"Key not found". -/
def HyperionDB.delete (db : HyperionDB) (key : String) :
    Except String Unit × HyperionDB × List ℕ :=
  let shard_id := db.getShard key
  match nget db.shards shard_id with
  | some shard =>
    match aget shard key with
    | some value =>
      (Except.ok (),
        { db with
            shards := nset db.shards shard_id (aerase shard key)
            indices := updateIndicesOnDelete db.indices key value
              db.indexed_fields },
        [shard_id])
    | none => (Except.error "Key not found", db, [])
  | none => (Except.error "Key not found", db, [])

/-- `HyperionDB::delete_many` (src/hyperion_db/delete_method.rs:24-46):
group the keys by shard id (first-occurrence order), remove the
present ones updating indexes, snapshot each touched shard once.
Absent keys are skipped silently. -/
def HyperionDB.deleteMany (db : HyperionDB) (keys : List String) :
    HyperionDB × List ℕ :=
  let groups : List (ℕ × List String) :=
    keys.foldl
      (fun gs k =>
        let sid := db.getShard k
        match nget gs sid with
        | some ks => nset gs sid (ks ++ [k])
        | none => gs ++ [(sid, [k])])
      []
  groups.foldl
    (fun acc g =>
      match nget acc.1.shards g.1 with
      | some shard =>
        let step := g.2.foldl
          (fun (st : List (String × Json) × List (String × Index)) k =>
            match aget st.1 k with
            | some value =>
              (aerase st.1 k,
                updateIndicesOnDelete st.2 k value acc.1.indexed_fields)
            | none => st)
          (shard, acc.1.indices)
        ({ acc.1 with
            shards := nset acc.1.shards g.1 step.1
            indices := step.2 },
          acc.2 ++ [g.1])
      | none => acc)
    (db, [])

/-- `HyperionDB::delete_all` (src/hyperion_db/delete_all.rs:6-26):
for every shard, remove each entry (updating indexes with the removed
value) and snapshot the now-empty shard. -/
def HyperionDB.deleteAll (db : HyperionDB) : HyperionDB × List ℕ :=
  db.shards.foldl
    (fun acc entry =>
      match nget acc.1.shards entry.1 with
      | some shard =>
        let indices₁ := shard.foldl
          (fun ind p => updateIndicesOnDelete ind p.1 p.2
            acc.1.indexed_fields)
          acc.1.indices
        ({ acc.1 with
            shards := nset acc.1.shards entry.1 []
            indices := indices₁ },
          acc.2 ++ [entry.1])
      | none => acc)
    (db, [])

/-- `HyperionDB::get_all_records`
(src/hyperion_db/get_all_records_method.rs:6-21): every value of every
shard; shard/entry iteration order is unspecified, so the result is a
multiset. -/
def HyperionDB.getAllRecords (db : HyperionDB) : Multiset Json :=
  ↑(db.shards.map (fun p => p.2.map Prod.snd)).flatten

/-- A leaf predicate of the query language (src/handler/mod.rs:6-10). -/
structure Condition where
  field : String
  operator : String
  value : String
deriving DecidableEq

/-- The query AST (src/handler/mod.rs:12-17). -/
inductive Expr where
  | condition : Condition → Expr
  | and : Expr → Expr → Expr
  | or : Expr → Expr → Expr
  | group : Expr → Expr
deriving DecidableEq

/-- `HyperionDB::evaluate_expr`
(src/hyperion_db/query_multiple.rs:25-51): a condition queries the
field's index (empty when none exists); `And` short-circuits on an
empty left key set, else intersects; `Or` unions; `Group` passes
through. -/
def HyperionDB.evaluateExpr (db : HyperionDB) : Expr → Finset String
  | .condition cond =>
    (match aget db.indices cond.field with
      | some index => index.queryKeys cond.operator cond.value
      | none => ∅)
  | .and lhs rhs =>
    let left_keys := db.evaluateExpr lhs
    if left_keys = ∅ then ∅
    else left_keys ∩ db.evaluateExpr rhs
  | .or lhs rhs => db.evaluateExpr lhs ∪ db.evaluateExpr rhs
  | .group inner => db.evaluateExpr inner

/-- `HyperionDB::query_expression`
(src/hyperion_db/query_multiple.rs:12-23): resolve each key of the
evaluated key set through `get`, keeping only the hits; iteration
order over the `HashSet` is unspecified, so the result is a
multiset. -/
def HyperionDB.queryExpression (db : HyperionDB) (expr : Expr) :
    Multiset Json :=
  Multiset.filterMap (fun key => db.get key) (db.evaluateExpr expr).val

/-- ASCII uppercasing: Rust `str::to_uppercase` on the characters the
protocol uses. -/
def strToUpper (s : String) : String :=
  String.mk (s.data.map Char.toUpper)

/-- Keyword reclassification of a bare token
(src/handler/mod.rs:49-58): if the uppercased token is `AND`, `OR`,
`(` or `)`, push the uppercased form, else the token verbatim. -/
def classifyBare (acc : List Char) : String :=
  let token := String.mk acc
  let upper := strToUpper token
  if upper = "AND" ∨ upper = "OR" ∨ upper = "(" ∨ upper = ")" then upper
  else token

mutual
/-- Outer loop of `tokenize` (src/handler/mod.rs:19-62): skip
whitespace, open a quoted token on `"`, else start a bare token. -/
def tokWs : List Char → List String
  | [] => []
  | c :: rest =>
    if c.isWhitespace then tokWs rest
    else if c = '"' then tokQuoted rest []
    else tokBare rest [c]
termination_by cs => (cs.length, 0)

/-- Quoted-token loop: collect characters until the closing quote
(consumed) or the end of input. -/
def tokQuoted : List Char → List Char → List String
  | [], acc => [String.mk acc.reverse]
  | c :: rest, acc =>
    if c = '"' then String.mk acc.reverse :: tokWs rest
    else tokQuoted rest (c :: acc)
termination_by cs _ => (cs.length, 0)

/-- Bare-token loop: collect until whitespace (left unconsumed, as in
the source, where the outer loop re-inspects it). -/
def tokBare : List Char → List Char → List String
  | [], acc => [classifyBare acc.reverse]
  | c :: rest, acc =>
    if c.isWhitespace then classifyBare acc.reverse :: tokWs (c :: rest)
    else tokBare rest (c :: acc)
termination_by cs _ => (cs.length, 1)
end

/-- `tokenize` (src/handler/mod.rs:19-62). -/
def tokenize (s : String) : List String := tokWs s.data

/-- Outcome of a parsing function: success carries the expression and
the updated token position; `outOfFuel` reports that the computation
did not finish within the given recursion budget (the Rust original
has no such bound — a run every budget fails to finish is a
non-terminating run). -/
inductive PResult where
  | ok : Expr → ℕ → PResult
  | err : String → PResult
  | outOfFuel : PResult
deriving DecidableEq

/-- `parse_condition` (src/handler/mod.rs:117-130): three consecutive
tokens become field, operator and value. -/
def parseConditionF (tokens : List String) (i : ℕ) :
    Except String (Condition × ℕ) :=
  match tokens.get? i with
  | none => Except.error "Falta el campo en la condición"
  | some field =>
    match tokens.get? (i + 1) with
    | none => Except.error "Falta el operador en la condición"
    | some operator =>
      match tokens.get? (i + 2) with
      | none => Except.error "Falta el valor en la condición"
      | some value => Except.ok (⟨field, operator, value⟩, i + 3)

mutual
/-- `parse_expression` (src/handler/mod.rs:64-67): parse an `or`
chain starting from position 0 of the token list. -/
def parseExpressionF : ℕ → List String → PResult
  | 0, _ => .outOfFuel
  | fuel + 1, tokens => parseOrF fuel tokens 0

/-- `parse_or` (src/handler/mod.rs:69-81): one `and` chain, then the
trailing `OR`-loop. -/
def parseOrF : ℕ → List String → ℕ → PResult
  | 0, _, _ => .outOfFuel
  | fuel + 1, tokens, i =>
    match parseAndF fuel tokens i with
    | .ok left i₁ => parseOrLoop fuel tokens left i₁
    | r => r

/-- The `while` loop of `parse_or`. -/
def parseOrLoop : ℕ → List String → Expr → ℕ → PResult
  | 0, _, _, _ => .outOfFuel
  | fuel + 1, tokens, left, i =>
    match tokens.get? i with
    | some token =>
      if strToUpper token = "OR" then
        match parseAndF fuel tokens (i + 1) with
        | .ok right i₂ => parseOrLoop fuel tokens (.or left right) i₂
        | r => r
      else .ok left i
    | none => .ok left i

/-- `parse_and` (src/handler/mod.rs:83-95). -/
def parseAndF : ℕ → List String → ℕ → PResult
  | 0, _, _ => .outOfFuel
  | fuel + 1, tokens, i =>
    match parseTermF fuel tokens i with
    | .ok left i₁ => parseAndLoop fuel tokens left i₁
    | r => r

/-- The `while` loop of `parse_and`. -/
def parseAndLoop : ℕ → List String → Expr → ℕ → PResult
  | 0, _, _, _ => .outOfFuel
  | fuel + 1, tokens, left, i =>
    match tokens.get? i with
    | some token =>
      if strToUpper token = "AND" then
        match parseTermF fuel tokens (i + 1) with
        | .ok right i₂ => parseAndLoop fuel tokens (.and left right) i₂
        | r => r
      else .ok left i
    | none => .ok left i

/-- `parse_term` (src/handler/mod.rs:97-115).  On `(` the source
calls `parse_expression(tokens)` — the whole token list again, from
position 0, not from the position after the parenthesis — and then
checks the outer position for `)`. -/
def parseTermF : ℕ → List String → ℕ → PResult
  | 0, _, _ => .outOfFuel
  | fuel + 1, tokens, i =>
    match tokens.get? i with
    | some token =>
      if token = "(" then
        match parseExpressionF fuel tokens with
        | .ok expr _ =>
          if tokens.get? (i + 1) = some ")" then .ok (.group expr) (i + 2)
          else .err "Falta el paréntesis de cierre"
        | r => r
      else
        match parseConditionF tokens i with
        | .ok (cond, i₁) => .ok (.condition cond) i₁
        | .error e => .err e
    | none => .err "Expresión inesperada al analizar la consulta"
end

/-- A single response line of the wire protocol, by meaning rather
than by formatted bytes: `ok` is `OK\n`, `bye` is `BYE\n`, `nullv`
is `NULL\n`, `value`/`listv` are the JSON payload lines, and
`errLine m` is `ERR m\n`. -/
inductive Response where
  | ok
  | bye
  | nullv
  | value : Json → Response
  | listv : Multiset Json → Response
  | errLine : String → Response

/-- The three `serde_json::from_str` deserialization sites of the
dispatcher, as opaque parameters (serde itself is an external
library). -/
structure SerdeCodec where
  parseValue : String → Except String Json
  parsePairs : String → Except String (List (String × Json))
  parseKeys : String → Except String (List String)

/-- Result of one dispatched command: the response (`Except.error`
is an error propagated with `?`, printed by the server loop as
`ERR e`), the new store state, the snapshots written and the WAL
appends performed. -/
structure CmdOut where
  resp : Except String Response
  db : HyperionDB
  saves : List ℕ
  wal : List (ℕ × String × Json)

/-- Rust `str::splitn(2, sep)`: at most two pieces, split at the
first separator occurrence. -/
def splitn2Go : List Char → Char → List Char → List String
  | [], _, acc => [String.mk acc.reverse]
  | c :: rest, sep, acc =>
    if c = sep then [String.mk acc.reverse, String.mk rest]
    else splitn2Go rest sep (c :: acc)

/-- `splitn(2, sep)` on a string. -/
def splitn2 (s : String) (sep : Char) : List String :=
  splitn2Go s.data sep []

/-- `handle_command` (src/handler/mod.rs:131-234): split the line at
the first space, uppercase the head, and dispatch on it through the
match arms in source order.  `fuel` bounds the recursion of the query
parser; `none` means the command did not finish within it (the `(`
restart bug makes this possible for every budget). -/
def handleCommand (codec : SerdeCodec) (fuel : ℕ) (db : HyperionDB)
    (command : String) : Option CmdOut :=
  let cmd_line := trimChars command
  let cmd_parts := splitn2 cmd_line ' '
  let cmd := strToUpper ((cmd_parts.get? 0).getD "")
  if cmd = "INSERT" then
    some (match cmd_parts.get? 1 with
      | some rest =>
        let insert_parts := splitn2 (trimChars rest) ' '
        (match insert_parts.get? 0, insert_parts.get? 1 with
          | some key, some value_str =>
            (match codec.parseValue value_str with
              | .ok value =>
                let r := db.insert key value
                ⟨.ok .ok, r.1, r.2, []⟩
              | .error e => ⟨.error e, db, [], []⟩)
          | _, _ => ⟨.ok (.errLine "Usage: INSERT <key> <value>"), db, [], []⟩)
      | none => ⟨.ok (.errLine "Usage: INSERT <key> <value>"), db, [], []⟩)
  else if cmd = "GET" then
    some (match cmd_parts.get? 1 with
      | some key =>
        (match db.get key with
          | some value => ⟨.ok (.value value), db, [], []⟩
          | none => ⟨.ok .nullv, db, [], []⟩)
      | none => ⟨.ok (.errLine "Usage: GET <key>"), db, [], []⟩)
  else if cmd = "DELETE" then
    some (match cmd_parts.get? 1 with
      | some key =>
        let r := db.delete key
        (match r.1 with
          | .ok _ => ⟨.ok .ok, r.2.1, r.2.2, []⟩
          | .error e => ⟨.error e, r.2.1, r.2.2, []⟩)
      | none => ⟨.ok (.errLine "Usage: DELETE <key>"), db, [], []⟩)
  else if cmd = "LIST" then
    some ⟨.ok (.listv db.getAllRecords), db, [], []⟩
  else if cmd = "QUERY" then
    match cmd_parts.get? 1 with
    | some rest =>
      let tokens := tokenize (trimChars rest)
      (match parseExpressionF fuel tokens with
        | .ok expr _ =>
          some ⟨.ok (.listv (db.queryExpression expr)), db, [], []⟩
        | .err e => some ⟨.ok (.errLine e), db, [], []⟩
        | .outOfFuel => none)
    | none => some ⟨.ok (.errLine "Usage: QUERY <conditions>"), db, [], []⟩
  else if cmd = "INSERT_OR_UPDATE" then
    some (match cmd_parts.get? 1 with
      | some rest =>
        let insert_parts := splitn2 (trimChars rest) ' '
        (match insert_parts.get? 0, insert_parts.get? 1 with
          | some key, some value_str =>
            (match codec.parseValue value_str with
              | .ok value =>
                let r := db.insertOrUpdate key value
                ⟨.ok .ok, r.1, [], r.2⟩
              | .error e => ⟨.error e, db, [], []⟩)
          | _, _ =>
            ⟨.ok (.errLine "Usage: INSERT_OR_UPDATE <key> <value>"), db, [], []⟩)
      | none =>
        ⟨.ok (.errLine "Usage: INSERT_OR_UPDATE <key> <value>"), db, [], []⟩)
  else if cmd = "DELETE ALL" then
    some
      (let r := db.deleteAll
       ⟨.ok .ok, r.1, r.2, []⟩)
  else if cmd = "INSERT_OR_UPDATE_MANY" then
    some (match cmd_parts.get? 1 with
      | some rest =>
        (match codec.parsePairs rest with
          | .ok items =>
            let r := db.insertOrUpdateMany items
            ⟨.ok .ok, r.1, [], r.2⟩
          | .error e => ⟨.error e, db, [], []⟩)
      | none =>
        ⟨.ok (.errLine "Usage: INSERT_OR_UPDATE_MANY <[key, value]...>"), db, [], []⟩)
  else if cmd = "DELETE_MANY" then
    some (match cmd_parts.get? 1 with
      | some rest =>
        (match codec.parseKeys rest with
          | .ok keys =>
            let r := db.deleteMany keys
            ⟨.ok .ok, r.1, r.2, []⟩
          | .error e => ⟨.error e, db, [], []⟩)
      | none =>
        ⟨.ok (.errLine "Usage: DELETE_MANY <[key1, key2, ...]>"), db, [], []⟩)
  else if cmd = "EXIT" then some ⟨.ok .bye, db, [], []⟩
  else some ⟨.ok (.errLine "Unknown command"), db, [], []⟩


/-- The token list of the query expression `( age = 30 )`. -/
def groupQueryTokens : List String := ["(", "age", "=", "30", ")"]

/-- The numeric indexed-field descriptor for `age`. -/
def ageField : IndexedField := ⟨"age", IndexType.numeric⟩

/-- A one-shard store holding `k ↦ {"age": 30}` with the matching
`age` index entry (invariant I1 holds here). -/
def dbAge : HyperionDB where
  shards := [(0, [("k", Json.obj [("age", Json.num 30)])])]
  indices := [("age", Index.numeric [(30000, {"k"})])]
  num_shards := 1
  hash := fun _ => 0
  indexed_fields := [ageField]

/-- A codec whose three deserializers always fail; the commands
exercised below never reach them. -/
def trivialCodec : SerdeCodec :=
  ⟨fun _ => Except.error "unsupported",
   fun _ => Except.error "unsupported",
   fun _ => Except.error "unsupported"⟩

/-- A one-shard store holding the single record `r1`. -/
def dbOne : HyperionDB where
  shards := [(0, [("r1", Json.obj [("x", Json.num 1)])])]
  indices := []
  num_shards := 1
  hash := fun _ => 0
  indexed_fields := []

/-- A one-shard store with no records and no indexes. -/
def dbEmpty : HyperionDB where
  shards := [(0, [])]
  indices := []
  num_shards := 1
  hash := fun _ => 0
  indexed_fields := []

/-! ## Map lemmas -/

theorem aget_aerase_self {α : Type} (m : List (String × α)) (k : String) :
    aget (aerase m k) k = none := by
  induction m with
  | nil => rfl
  | cons p rest ih =>
    cases p with
    | mk a b =>
      by_cases h : a = k
      · simpa [aerase, List.filter_cons, h] using ih
      · simpa [aerase, List.filter_cons, h, aget] using ih

theorem aerase_eq_of_aget_none {α : Type} (m : List (String × α))
    (k : String) (h : aget m k = none) : aerase m k = m := by
  induction m with
  | nil => rfl
  | cons p rest ih =>
    cases p with
    | mk a b =>
      by_cases hpk : a = k
      · simp [aget, hpk] at h
      · have hrest : aget rest k = none := by simpa [aget, hpk] using h
        simpa [aerase, List.filter_cons, hpk] using ih hrest

theorem nget_nset_self {α : Type} (m : List (ℕ × α)) (k : ℕ) (v : α) :
    nget (nset m k v) k = some v := by
  induction m with
  | nil => simp [nset, nget]
  | cons p rest ih =>
    cases p with
    | mk a b =>
      by_cases h : a = k
      · simp [nset, nget, h]
      · simpa [nset, nget, h] using ih

/-! ## Multiset lemma for the query-result cardinality -/

theorem card_filterMap_isSome (f : String → Option Json)
    (s : Multiset String) :
    (Multiset.filterMap f s).card =
      (Multiset.filter (fun k => (f k).isSome = true) s).card := by
  induction s using Multiset.induction_on with
  | empty => simp
  | cons a s ih =>
    cases h : f a with
    | none =>
      rw [Multiset.filterMap_cons_none _ _ h,
        Multiset.filter_cons_of_neg _ (by simp [h])]
      exact ih
    | some b =>
      rw [Multiset.filterMap_cons_some _ _ _ h,
        Multiset.filter_cons_of_pos _ (by simp [h])]
      simp [ih]

/-! ## Claim theorems -/

/-- C9.  The evaluator satisfies the claimed set algebra:
`eval (And l r)` is the intersection of the operand evaluations (the
source short-circuits on an empty left operand, which yields exactly
the empty intersection), `eval (Or l r)` is their union,
`eval (Group e)` is `eval e`, and a condition over a field with no
index evaluates to the empty key set. -/
theorem evaluateExpr_algebra (db : HyperionDB) (l r inner : Expr)
    (c : Condition) :
    db.evaluateExpr (.and l r) = db.evaluateExpr l ∩ db.evaluateExpr r ∧
    db.evaluateExpr (.or l r) = db.evaluateExpr l ∪ db.evaluateExpr r ∧
    db.evaluateExpr (.group inner) = db.evaluateExpr inner ∧
    (aget db.indices c.field = none →
      db.evaluateExpr (.condition c) = ∅) := by
  refine ⟨?_, rfl, rfl, ?_⟩
  · by_cases h : db.evaluateExpr l = ∅
    · simp [HyperionDB.evaluateExpr, h]
    · simp [HyperionDB.evaluateExpr, h]
  · intro h
    simp [HyperionDB.evaluateExpr, h]

/-- C10.  `query_expression` returns exactly the current values of
the evaluated keys that are still present in their shard: membership
in the result is equivalent to being the stored value of some key of
the key set, and the result has one entry per present key (keys the
index still holds but the primary store lost contribute nothing — no
NULL placeholder). -/
theorem queryExpression_contract (db : HyperionDB) (e : Expr) :
    (∀ v : Json, v ∈ db.queryExpression e ↔
      ∃ k ∈ db.evaluateExpr e, db.get k = some v) ∧
    (db.queryExpression e).card =
      ((db.evaluateExpr e).filter
        (fun k => (db.get k).isSome = true)).card := by
  constructor
  · intro v
    rw [HyperionDB.queryExpression]
    exact Multiset.mem_filterMap (fun key => db.get key)
      (db.evaluateExpr e).val
  · rw [HyperionDB.queryExpression, card_filterMap_isSome]
    rfl


/-- On a token list opening with `(`, every fuel budget runs out: the
group branch of `parseTermF` re-enters `parseExpressionF` on the whole
token list from position 0, which reaches the same `parseTermF` call
again. -/
theorem groupStuckAux : ∀ fuel,
    parseExpressionF fuel groupQueryTokens = .outOfFuel ∧
    parseOrF fuel groupQueryTokens 0 = .outOfFuel ∧
    parseAndF fuel groupQueryTokens 0 = .outOfFuel ∧
    parseTermF fuel groupQueryTokens 0 = .outOfFuel := by
  intro fuel
  induction fuel with
  | zero =>
    refine ⟨?_, ?_, ?_, ?_⟩ <;>
      simp [parseExpressionF, parseOrF, parseAndF, parseTermF]
  | succ n ih =>
    have ih1 : parseExpressionF n ["(", "age", "=", "30", ")"] =
        .outOfFuel := ih.1
    have hterm : parseTermF (n + 1) groupQueryTokens 0 = .outOfFuel := by
      rw [parseTermF]
      simp +decide [groupQueryTokens, ih1]
    have hand : parseAndF (n + 1) groupQueryTokens 0 = .outOfFuel := by
      rw [parseAndF]
      simp [ih.2.2.2]
    have hor : parseOrF (n + 1) groupQueryTokens 0 = .outOfFuel := by
      rw [parseOrF]
      simp [ih.2.2.1]
    have hexp : parseExpressionF (n + 1) groupQueryTokens = .outOfFuel := by
      rw [parseExpressionF]
      exact ih.2.1
    exact ⟨hexp, hor, hand, hterm⟩

/-- C1.  The tokenizer turns `( age = 30 )` into the five tokens of a
parenthesized condition, and on that token list the parser never
finishes within any recursion budget: `parse_term` restarts
`parse_expression` on the whole token list instead of continuing
after the `(`, so the Rust original recurses without bound instead of
parsing the group and consuming the closing parenthesis. -/
theorem parseGroup_diverges :
    tokenize "( age = 30 )" = ["(", "age", "=", "30", ")"] ∧
    ∀ fuel,
      parseExpressionF fuel ["(", "age", "=", "30", ")"] = .outOfFuel := by
  constructor
  · simp +decide [tokenize, tokWs, tokQuoted, tokBare, classifyBare,
      strToUpper]
  · intro fuel
    have h := (groupStuckAux fuel).1
    simpa [groupQueryTokens] using h

/-- C2.  Evaluation of the `!=` arms at a store where `k1` is indexed
only under the bucket equal to the query literal: the numeric index
`{1000 ↦ {k1}, 2000 ↦ {k2}}` queried with `!= 1` (normalized key
1000) returns `{k1, k2}` — `k1` included, although its bucket equals
the literal — and the string index `{x ↦ {s1}, y ↦ {s2}}` queried
with `!= x` likewise returns `{s1, s2}`. -/
theorem queryNeq_includes_equal_bucket :
    queryNumeric [(1000, {"k1"}), (2000, {"k2"})] "!=" "1" =
      {"k1", "k2"} ∧
    "k1" ∈ queryNumeric [(1000, {"k1"}), (2000, {"k2"})] "!=" "1" ∧
    zget [((1000 : ℤ), ({"k1"} : Finset String)), (2000, {"k2"})]
      (queryNormKey 1) = some {"k1"} ∧
    queryString [("x", {"s1"}), ("y", {"s2"})] "!=" "x" =
      {"s1", "s2"} ∧
    "s1" ∈ queryString [("x", {"s1"}), ("y", {"s2"})] "!=" "x" := by
  have hp : parseDecimal "1" = some 1 := by
    simp +decide [parseDecimal, parseUnsigned, digitsToNat, List.span]
  have hq : queryNormKey 1 = 1000 := by
    norm_num [queryNormKey, f64ToI64]
  refine ⟨?_, ?_, ?_, ?_, ?_⟩
  · rw [queryNumeric, hp]
    simp [extendAll]
    rw [show ({"k1"} : Finset String) = insert "k1" ∅ from rfl,
      Finset.insert_union]
    simp
  · rw [queryNumeric, hp]
    simp [extendAll]
  · rw [hq]
    simp [zget]
  · rw [queryString]
    simp [extendAll]
    rw [show ({"s1"} : Finset String) = insert "s1" ∅ from rfl,
      Finset.insert_union]
    simp
  · rw [queryString]
    simp [extendAll]

/-- C6 counterexample.  At `v = 1/16` (exactly representable in
`f64`, product with 1000 exact) the code's normalization truncates
`62.5` to 62, while the spec's `round(v * 1000)` gives 63: the
normalized index key is not `round(v * 1000)`. -/
theorem normKey_not_round :
    insertNormKey (1 / 16) = 62 ∧ specRoundNormKey (1 / 16) = 63 ∧
    insertNormKey (1 / 16) ≠ specRoundNormKey (1 / 16) := by
  have h₁ : insertNormKey (1 / 16) = 62 := by
    norm_num [insertNormKey, f64ToI64]
  have h₂ : specRoundNormKey (1 / 16) = 63 := by
    norm_num [specRoundNormKey]
  exact ⟨h₁, h₂, by rw [h₁, h₂]; decide⟩

/-- C6 (amended).  The numeric normalization is the truncation toward
zero of `v * 1000` (Rust `as i64`), not rounding, and the very same
normalization is applied on the index-maintenance side
(`insertNormKey`, used by `update_indices_on_insert` and
`update_indices_on_delete`) and on the query side (`queryNormKey`,
used by `query_numeric`). -/
theorem normKey_trunc_both_sides (v : ℚ) :
    insertNormKey v = queryNormKey v ∧
    insertNormKey v = f64ToI64 (v * 1000) :=
  ⟨rfl, rfl⟩

/-- C5.  The two `get_nested_field` implementations disagree, and the
one wired into index maintenance (src/index/mod.rs) violates the
claimed contract: on `{"a": 5}` with path `a.b` it returns the
non-terminal non-object value `5` (the documented utils.rs resolver
returns `none`), on `{"a": {}}` with path `a` it returns `none`
although the terminal value exists, and consequently
`update_indices_on_insert` indexes the record under `a.b ↦ 5000`
instead of ignoring the field. -/
theorem nestedField_mod_breaks_contract :
    getNestedFieldMod [("a", Json.num 5)] "a.b" = some (Json.num 5) ∧
    getNestedFieldUtils [("a", Json.num 5)] "a.b" = none ∧
    getNestedFieldMod [("a", Json.obj [])] "a" = none ∧
    updateIndicesOnInsert [] "k" (Json.obj [("a", Json.num 5)])
      [⟨"a.b", IndexType.numeric⟩] =
      [("a.b", Index.numeric [(5000, {"k"})])] := by
  have h5 : insertNormKey 5 = 5000 := by
    norm_num [insertNormKey, f64ToI64]
  refine ⟨?_, ?_, ?_, ?_⟩
  · simp +decide [getNestedFieldMod, getNestedFieldModGo, splitChar,
      splitCharGo, aget]
  · simp +decide [getNestedFieldUtils, getNestedFieldUtilsGo, splitChar,
      splitCharGo, aget]
  · simp +decide [getNestedFieldMod, getNestedFieldModGo, splitChar,
      splitCharGo, aget]
  · simp +decide [updateIndicesOnInsert, applyInsertField,
      getNestedFieldMod, getNestedFieldModGo, splitChar, splitCharGo,
      aget, aset, zset, zget, h5]


/-- C3.  Replacing `k ↦ {"age": 30}` by `{"age": 40}` through
`insert_or_update` leaves the index entry for the previous value in
place: afterwards the `age` index holds `k` under both 30000 and
40000, while the stored value justifies only 40000 — the old-value
removal the claim describes never happens, and invariant I1 is
broken. -/
theorem insertOrUpdate_keeps_stale_entry :
    (dbAge.insertOrUpdate "k" (Json.obj [("age", Json.num 40)])).1.indices =
      [("age", Index.numeric [(30000, {"k"}), (40000, {"k"})])] ∧
    (dbAge.insertOrUpdate "k" (Json.obj [("age", Json.num 40)])).1.get "k" =
      some (Json.obj [("age", Json.num 40)]) ∧
    insertNormKey 40 = 40000 ∧ insertNormKey 30 = 30000 ∧
    (30000 : ℤ) ≠ 40000 := by
  have h40 : insertNormKey 40 = 40000 := by
    norm_num [insertNormKey, f64ToI64]
  have h30 : insertNormKey 30 = 30000 := by
    norm_num [insertNormKey, f64ToI64]
  refine ⟨?_, ?_, h40, h30, by decide⟩
  · simp +decide [dbAge, ageField, HyperionDB.insertOrUpdate,
      HyperionDB.getShard, nget, nset, updateIndicesOnInsert,
      applyInsertField, getNestedFieldMod, getNestedFieldModGo,
      splitChar, splitCharGo, aget, aset, zset, zget, h40]
  · simp +decide [dbAge, ageField, HyperionDB.insertOrUpdate,
      HyperionDB.get, HyperionDB.getShard, nget, nset,
      updateIndicesOnInsert, applyInsertField, getNestedFieldMod,
      getNestedFieldModGo, splitChar, splitCharGo, aget, aset, zset,
      zget, h40]

/-- C4.  The line `DELETE ALL` is split at its first space, so the
dispatcher sees head `DELETE` and never reaches the `"DELETE ALL"`
match arm: on a store holding only `r1`, the command runs the
single-key delete of the key `ALL`, which propagates the error
`Key not found` (no `OK`), leaves the store untouched and writes no
snapshot — while the `delete_all` operation the claim names would
have emptied the shard and the indexes and snapshotted shard 0. -/
theorem deleteAll_line_misdispatched :
    handleCommand trivialCodec 0 dbOne "DELETE ALL" =
      some ⟨Except.error "Key not found", dbOne, [], []⟩ ∧
    dbOne.get "r1" = some (Json.obj [("x", Json.num 1)]) ∧
    (dbOne.deleteAll).1.shards = [(0, [])] ∧
    (dbOne.deleteAll).1.indices = [] ∧
    (dbOne.deleteAll).2 = [0] :=
  ⟨rfl, rfl, rfl, rfl, rfl⟩

/-- C7 counterexample.  The token list of `a = 1 b = 2` has six
tokens; the parser consumes only the first three (one condition) and
succeeds, and the dispatcher answers with the evaluation of that
prefix (here the empty result list) instead of an `ERR` line. -/
theorem queryTrailingTokens_not_error :
    tokenize "a = 1 b = 2" = ["a", "=", "1", "b", "=", "2"] ∧
    parseExpressionF 9 (tokenize "a = 1 b = 2") =
      .ok (.condition ⟨"a", "=", "1"⟩) 3 ∧
    handleCommand trivialCodec 9 dbEmpty "QUERY a = 1 b = 2" =
      some ⟨.ok (.listv 0), dbEmpty, [], []⟩ := by
  have htok : tokenize "a = 1 b = 2" = ["a", "=", "1", "b", "=", "2"] := by
    simp +decide [tokenize, tokWs, tokQuoted, tokBare, classifyBare,
      strToUpper]
  have hpar : parseExpressionF 9 ["a", "=", "1", "b", "=", "2"] =
      .ok (.condition ⟨"a", "=", "1"⟩) 3 := by
    simp +decide [parseExpressionF, parseOrF, parseAndF, parseOrLoop,
      parseAndLoop, parseTermF, parseConditionF, strToUpper]
  refine ⟨htok, by rw [htok]; exact hpar, ?_⟩
  have htrim : trimChars "QUERY a = 1 b = 2" = "QUERY a = 1 b = 2" := rfl
  have htok₂ : tokenize (trimChars "a = 1 b = 2") =
      ["a", "=", "1", "b", "=", "2"] := by
    rw [show trimChars "a = 1 b = 2" = "a = 1 b = 2" from rfl, htok]
  have hq : dbEmpty.queryExpression (.condition ⟨"a", "=", "1"⟩) = 0 := rfl
  simp only [handleCommand, htrim]
  simp +decide [splitn2, splitn2Go, strToUpper, htok₂, hpar, hq]

/-- C7 (amended).  Unconsumed trailing tokens after a complete
expression do not produce an error: the dispatcher discards the
parser's consumed count, and whenever the parser succeeds on a
prefix of the token list, the QUERY command returns the evaluation
of that prefix expression. -/
theorem queryArm_ignores_trailing (codec : SerdeCodec) (fuel : ℕ)
    (db : HyperionDB) (rest : String) (e : Expr) (i : ℕ)
    (htrim : trimChars ("QUERY " ++ rest) = "QUERY " ++ rest)
    (hrest : trimChars rest = rest)
    (hparse : parseExpressionF fuel (tokenize rest) = .ok e i)
    (_htrail : i < (tokenize rest).length) :
    handleCommand codec fuel db ("QUERY " ++ rest) =
      some ⟨.ok (.listv (db.queryExpression e)), db, [], []⟩ := by
  have hsplit : splitn2 ("QUERY " ++ rest) ' ' = ["QUERY", rest] := by
    cases rest with
    | mk data => rfl
  simp only [handleCommand, htrim, hsplit]
  simp +decide [strToUpper, hrest, hparse]

/-- Witness for `queryArm_ignores_trailing` at the concrete command
`QUERY a = 1 b = 2` on the empty store. -/
theorem queryArm_ignores_trailing_witness :
    handleCommand trivialCodec 9 dbEmpty "QUERY a = 1 b = 2" =
      some ⟨.ok (.listv (dbEmpty.queryExpression
        (.condition ⟨"a", "=", "1"⟩))), dbEmpty, [], []⟩ := by
  have htok : tokenize "a = 1 b = 2" = ["a", "=", "1", "b", "=", "2"] := by
    simp +decide [tokenize, tokWs, tokQuoted, tokBare, classifyBare,
      strToUpper]
  have hpar : parseExpressionF 9 (tokenize "a = 1 b = 2") =
      .ok (.condition ⟨"a", "=", "1"⟩) 3 := by
    rw [htok]
    simp +decide [parseExpressionF, parseOrF, parseAndF, parseOrLoop,
      parseAndLoop, parseTermF, parseConditionF, strToUpper]
  exact queryArm_ignores_trailing trivialCodec 9 dbEmpty "a = 1 b = 2"
    (.condition ⟨"a", "=", "1"⟩) 3 rfl rfl hpar (by rw [htok]; decide)

/-- C8.  Against any store whose shard registry contains the key's
shard: `delete` fails with `Key not found` exactly when the key is
absent from that shard; on failure the store (shards and indexes) is
returned unchanged and no snapshot is written; on success the key's
shard no longer contains it, the indexes are updated with the
removed value, and exactly that shard is re-snapshotted. -/
theorem delete_contract (db : HyperionDB) (key : String)
    (shard : List (String × Json))
    (hshard : nget db.shards (db.getShard key) = some shard) :
    ((db.delete key).1 = Except.error "Key not found" ↔
      aget shard key = none) ∧
    (aget shard key = none →
      (db.delete key).2.1 = db ∧ (db.delete key).2.2 = []) ∧
    (∀ v, aget shard key = some v →
      (db.delete key).1 = Except.ok () ∧
      (db.delete key).2.2 = [db.getShard key] ∧
      nget (db.delete key).2.1.shards (db.getShard key) =
        some (aerase shard key) ∧
      aget (aerase shard key) key = none ∧
      (db.delete key).2.1.indices =
        updateIndicesOnDelete db.indices key v db.indexed_fields) := by
  simp only [HyperionDB.delete, hshard]
  cases haget : aget shard key with
  | none => simp [haget]
  | some v =>
    refine ⟨by simp, ?_, ?_⟩
    · intro h
      simp at h
    · intro w hw
      obtain rfl : v = w := Option.some.inj hw
      exact ⟨rfl, rfl, nget_nset_self _ _ _, aget_aerase_self _ _, rfl⟩

/-- Witness for `delete_contract`: deleting the present key `r1`
from `dbOne` succeeds and snapshots shard 0. -/
theorem delete_contract_witness :
    (dbOne.delete "r1").1 = Except.ok () ∧
    (dbOne.delete "r1").2.2 = [0] ∧
    aget (aerase [("r1", Json.obj [("x", Json.num 1)])] "r1") "r1" =
      none := by
  have h := delete_contract dbOne "r1"
    [("r1", Json.obj [("x", Json.num 1)])] rfl
  have h2 := h.2.2 (Json.obj [("x", Json.num 1)]) rfl
  exact ⟨h2.1, h2.2.1, h2.2.2.2.1⟩

/-- Witness for `evaluateExpr_algebra`: on the empty store the field
`a` has no index and the condition `a = 1` evaluates to the empty
key set. -/
theorem evaluateExpr_algebra_witness :
    aget dbEmpty.indices "a" = none ∧
    dbEmpty.evaluateExpr (.condition ⟨"a", "=", "1"⟩) = ∅ :=
  ⟨rfl,
    (evaluateExpr_algebra dbEmpty (.condition ⟨"a", "=", "1"⟩)
      (.condition ⟨"a", "=", "1"⟩) (.condition ⟨"a", "=", "1"⟩)
      ⟨"a", "=", "1"⟩).2.2.2 rfl⟩
